import Mathlib

/-!
Verification of the task-store core of the Jejo task manager
(`src/app/taskmanager.py`, class `TaskManager`).

The store is an ordered list of task records.  Python represents a task as a
dict with the five fields `id`, `title`, `description`, `priority`,
`completed`; we embed it as the record `Task`.  Python ints are embedded as
`Int` (they are unbounded), strings as `String`, booleans as `Bool`.

Each Python method is embedded as a pure function on the task list.  Mutating
methods (`add_task`, `update_task`, `delete_task`, `mark_complete`,
`clear_completed`) return the new list (plus a found/count outcome where the
source prints one); query methods (`list_tasks`, `sort_tasks`) return the
displayed view paired with the unchanged store, mirroring that the source
builds the view out of fresh lists / a copy and leaves `self.tasks` alone.
File persistence (`save_tasks` / `load_tasks`) is embedded at the level of
JSON values: `save_tasks` produces the JSON array `json.dump` would write and
`load_tasks` interprets a JSON value as `json.load` followed by the
field accesses the rest of the class performs.
-/

namespace TaskStore

/-- One task record, as stored in `self.tasks`
(`taskmanager.py` lines 92-98: dict with keys id, title, description,
priority, completed).  No field is validated anywhere in the source, so
`priority` is an arbitrary string and `id` an arbitrary integer here. -/
structure Task where
  id : Int
  title : String
  description : String
  priority : String
  completed : Bool
deriving DecidableEq, Repr

/-- Python's `str.lower()`, as applied by this program.  Embedded as
character-wise ASCII lowercasing over the string's characters.  Every
lowercased value the program compares against is a pure-ASCII literal
("done", "high", "medium", "low"), and on such comparisons Python's Unicode
`str.lower` and ASCII character-wise lowercasing agree (no character outside
A-Z lowercases to an ASCII letter occurring in those literals). -/
def str_lower (s : String) : String :=
  ⟨s.data.map Char.toLower⟩

/-- The id chosen for a new task:
`task_id = self.tasks[-1]['id'] + 1 if self.tasks else 1` (line 87).
Note the source reads the LAST element's id, not the maximum. -/
def next_id (tasks : List Task) : Int :=
  match tasks.getLast? with
  | some t => t.id + 1
  | none => 1

/-- `add_task(title, description, priority)` (lines 74-101): lowercase the
priority, coerce anything outside {high, medium, low} to "medium", append a
new non-completed task with the next id.  Returns the new store. -/
def add_task (tasks : List Task) (title : String) (description : String)
    (priority : String) : List Task :=
  let p := str_lower priority
  let p := if p = "high" ∨ p = "medium" ∨ p = "low" then p else "medium"
  tasks ++ [{ id := next_id tasks, title := title, description := description,
              priority := p, completed := false }]

/-- `list_tasks(filter_status, filter_priority)` (lines 103-136).  The value
`none` stands for Python `None`; `if filter_status:` is Python truthiness, so
an empty string also skips the filter.  Returns (displayed view, store);
the store component records that the method never reassigns `self.tasks`. -/
def list_tasks (tasks : List Task) (filter_status : Option String)
    (filter_priority : Option String) : List Task × List Task :=
  let t1 := match filter_status with
    | none => tasks
    | some s =>
        if s = "" then tasks
        else tasks.filter (fun t => t.completed == (str_lower s == "done"))
  let t2 := match filter_priority with
    | none => t1
    | some p =>
        if p = "" then t1
        else t1.filter (fun t => t.priority == str_lower p)
  (t2, tasks)

/-- The dict `priority_order = {"high": 0, "medium": 1, "low": 2}`
(line 192); lookup of a missing key raises `KeyError`, embedded as `none`. -/
def priority_order (p : String) : Option Nat :=
  if p = "high" then some 0
  else if p = "medium" then some 1
  else if p = "low" then some 2
  else none

/-- The sort key `lambda x: priority_order[x["priority"]]` (line 193), on the
branch where every lookup succeeds (`sort_tasks` guards it below). -/
def priority_rank (t : Task) : Nat :=
  (priority_order t.priority).getD 0

/-- The sort key `lambda x: x["completed"]` (line 195): False sorts before
True. -/
def status_rank (t : Task) : Nat :=
  if t.completed then 1 else 0

/-- Key order for the priority sort. -/
def prio_le (a b : Task) : Prop := priority_rank a ≤ priority_rank b

instance : DecidableRel prio_le := fun _ _ => Nat.decLe _ _

/-- Key order for the status sort. -/
def status_le (a b : Task) : Prop := status_rank a ≤ status_rank b

instance : DecidableRel status_le := fun _ _ => Nat.decLe _ _

/-- `sort_tasks(sort_by)` (lines 179-204): sorts a COPY of the list
(`self.tasks.copy()`), so the store itself is returned unchanged in the
second component.  `list.sort(key=f)` in CPython first computes every key and
only then sorts stably; a `KeyError` from `priority_order[...]` therefore
aborts before anything is displayed, embedded as the view `none`.  The stable
sort itself is embedded as `List.insertionSort` on the non-strict key order
(insertion before the first element the key is ≤ to keeps ties in original
order, which is exactly the stability contract of `list.sort`).  Any
`sort_by` other than "priority" / "status" falls through both branches and
displays the copy unsorted. -/
def sort_tasks (tasks : List Task) (sort_by : String) :
    Option (List Task) × List Task :=
  let view :=
    if sort_by = "priority" then
      if tasks.all (fun t => (priority_order t.priority).isSome) then
        some (tasks.insertionSort prio_le)
      else none
    else if sort_by = "status" then
      some (tasks.insertionSort status_le)
    else some tasks
  (view, tasks)

/-- `update_task(task_id, new_title)` (lines 206-222): linear scan, retitle
the first task with a matching id.  The Bool is true iff a task was found
(the source prints "updated successfully" / "not found" accordingly). -/
def update_task : List Task → Int → String → List Task × Bool
  | [], _, _ => ([], false)
  | t :: ts, task_id, new_title =>
      if t.id = task_id then ({ t with title := new_title } :: ts, true)
      else
        let r := update_task ts task_id new_title
        (t :: r.1, r.2)

/-- `delete_task(task_id)` (lines 224-240): delete the first task with a
matching id (`del self.tasks[i]` at the first matching index).  The Bool is
true iff a task was found. -/
def delete_task : List Task → Int → List Task × Bool
  | [], _ => ([], false)
  | t :: ts, task_id =>
      if t.id = task_id then (ts, true)
      else
        let r := delete_task ts task_id
        (t :: r.1, r.2)

/-- `mark_complete(task_id)` (lines 242-258): set `completed` of the first
task with a matching id.  The Bool is true iff a task was found. -/
def mark_complete : List Task → Int → List Task × Bool
  | [], _ => ([], false)
  | t :: ts, task_id =>
      if t.id = task_id then ({ t with completed := true } :: ts, true)
      else
        let r := mark_complete ts task_id
        (t :: r.1, r.2)

/-- `clear_completed()` (lines 166-177): keep the non-completed tasks, report
how many were removed. -/
def clear_completed (tasks : List Task) : List Task × Nat :=
  let kept := tasks.filter (fun t => !t.completed)
  (kept, tasks.length - kept.length)

/-!
JSON persistence.  `json.dump` / `json.load` translate between Python values
and JSON text; we embed the JSON values themselves.
-/

/-- A JSON value (the fragment Python's `json` module exchanges with this
program: objects, arrays, strings, integers, booleans, null). -/
inductive JValue where
  | jnull : JValue
  | jbool : Bool → JValue
  | jint : Int → JValue
  | jstr : String → JValue
  | jarr : List JValue → JValue
  | jobj : List (String × JValue) → JValue

/-- Python dict key lookup `d[k]` on a JSON object: first binding wins
(JSON objects written by `json.dump` have distinct keys). -/
def jlookup (fields : List (String × JValue)) (k : String) : Option JValue :=
  (fields.find? (fun p => p.1 == k)).map (fun p => p.2)

/-- The JSON object a task dict serializes to; field order is the dict
construction order of lines 92-98 (id, title, description, priority,
completed), which is also the order `save_tasks` writes. -/
def task_to_json (t : Task) : JValue :=
  .jobj [("id", .jint t.id), ("title", .jstr t.title),
         ("description", .jstr t.description), ("priority", .jstr t.priority),
         ("completed", .jbool t.completed)]

/-- `save_tasks()` (lines 58-72): serialize the full ordered collection as
one JSON array (`json.dump(self.tasks, f, indent=2)`). -/
def save_tasks (tasks : List Task) : JValue :=
  .jarr (tasks.map task_to_json)

/-- Read one task record back from a JSON value.  `json.load` itself performs
no validation (it hands back raw dicts); the rest of the class then accesses
exactly the five keys with `t["id"]`, `t["title"]`, ….  A value on which
those accesses would fail (missing key, wrong shape) is `none`.  Crucially,
no field CONTENT is checked: any integer id and any priority string are
accepted. -/
def task_of_json (v : JValue) : Option Task :=
  match v with
  | .jobj fields =>
      match jlookup fields "id", jlookup fields "title",
            jlookup fields "description", jlookup fields "priority",
            jlookup fields "completed" with
      | some (.jint i), some (.jstr ti), some (.jstr d), some (.jstr p),
        some (.jbool c) =>
          some { id := i, title := ti, description := d, priority := p,
                 completed := c }
      | _, _, _, _, _ => none
  | _ => none

/-- Interpret each element of a JSON array as a task record; `none` as soon
as one element does not have the record shape. -/
def tasks_of_json : List JValue → Option (List Task)
  | [] => some []
  | v :: vs =>
      match task_of_json v, tasks_of_json vs with
      | some t, some ts => some (t :: ts)
      | _, _ => none

/-- `load_tasks()` (lines 40-56) on an existing, syntactically valid file:
`self.tasks = json.load(f)`, a JSON array interpreted record by record. -/
def load_tasks (v : JValue) : Option (List Task) :=
  match v with
  | .jarr xs => tasks_of_json xs
  | _ => none

/-- The store states reachable by the program: the store starts empty (the
default `task/tasks.json` absent) and evolves only through the five mutating
methods. -/
inductive Reachable : List Task → Prop where
  | empty : Reachable []
  | add (s : List Task) (title description priority : String) :
      Reachable s → Reachable (add_task s title description priority)
  | update (s : List Task) (i : Int) (x : String) :
      Reachable s → Reachable (update_task s i x).1
  | delete (s : List Task) (i : Int) :
      Reachable s → Reachable (delete_task s i).1
  | mark (s : List Task) (i : Int) :
      Reachable s → Reachable (mark_complete s i).1
  | clear (s : List Task) :
      Reachable s → Reachable (clear_completed s).1

/-- A whole run of `add` calls (title, description, priority triples) against
a store that starts empty, as in §8 of the spec: "for all sequences of `add`
calls". -/
def add_seq (args : List (String × String × String)) : List Task :=
  args.foldl (fun s a => add_task s a.1 a.2.1 a.2.2) []

/-- The integer list `[1, 2, …, n]`. -/
def int_range (n : Nat) : List Int :=
  (List.range n).map (fun (i : Nat) => (i : Int) + 1)

/-! ### Helper lemmas -/

lemma ids_add (ts : List Task) (a d p : String) :
    (add_task ts a d p).map Task.id = ts.map Task.id ++ [next_id ts] := by
  simp [add_task]

lemma ids_update (ts : List Task) (i : Int) (x : String) :
    ((update_task ts i x).1).map Task.id = ts.map Task.id := by
  induction ts with
  | nil => rfl
  | cons t ts ih =>
      by_cases h : t.id = i
      · simp [update_task, h]
      · simp [update_task, h, ih]

lemma ids_mark (ts : List Task) (i : Int) :
    ((mark_complete ts i).1).map Task.id = ts.map Task.id := by
  induction ts with
  | nil => rfl
  | cons t ts ih =>
      by_cases h : t.id = i
      · simp [mark_complete, h]
      · simp [mark_complete, h, ih]

lemma delete_fst_sublist (ts : List Task) (i : Int) :
    ((delete_task ts i).1).Sublist ts := by
  induction ts with
  | nil => simp [delete_task]
  | cons t ts ih =>
      by_cases h : t.id = i
      · simp [delete_task, h]
      · simpa [delete_task, h] using List.Sublist.cons₂ t ih

lemma clear_fst_sublist (ts : List Task) :
    ((clear_completed ts).1).Sublist ts :=
  List.filter_sublist ts

lemma mem_of_getLast?_eq {α : Type} {l : List α} {a : α}
    (h : l.getLast? = some a) : a ∈ l := by
  induction l using List.reverseRecOn with
  | nil => cases h
  | append_singleton l' b _ =>
      rw [List.getLast?_concat] at h
      obtain rfl : b = a := by injection h
      simp

lemma le_getLast_of_pairwise {l : List Int} {m x : Int}
    (hs : l.Pairwise (· < ·)) (hl : l.getLast? = some m) (hx : x ∈ l) :
    x ≤ m := by
  induction l using List.reverseRecOn with
  | nil => cases hx
  | append_singleton l' a _ =>
      rw [List.getLast?_concat] at hl
      obtain rfl : a = m := by injection hl
      rcases List.mem_append.mp hx with hx' | hx'
      · exact le_of_lt ((List.pairwise_append.mp hs).2.2 x hx' _ (by simp))
      · simp at hx'
        exact le_of_eq hx'

lemma next_id_of_getLast? {ts : List Task} {m : Int}
    (hl : (ts.map Task.id).getLast? = some m) : next_id ts = m + 1 := by
  rw [List.getLast?_map] at hl
  cases hgl : ts.getLast? with
  | none => rw [hgl] at hl; cases hl
  | some t =>
      rw [hgl] at hl
      simp only [Option.map_some'] at hl
      obtain rfl : t.id = m := by injection hl
      simp [next_id, hgl]

lemma reachable_ids_pairwise {s : List Task} (h : Reachable s) :
    (s.map Task.id).Pairwise (· < ·) := by
  induction h with
  | empty => simp
  | add s a d p _ ih =>
      rw [ids_add]
      cases hl : (s.map Task.id).getLast? with
      | none =>
          have hnil : s.map Task.id = [] := by
            simpa using hl
          simp [hnil]
      | some m =>
          refine List.pairwise_append.mpr ⟨ih, by simp, ?_⟩
          intro x hx b hb
          simp only [List.mem_singleton] at hb
          subst hb
          rw [next_id_of_getLast? hl]
          have := le_getLast_of_pairwise ih hl hx
          omega
  | update s i x _ ih => rw [ids_update]; exact ih
  | delete s i _ ih =>
      exact List.Pairwise.sublist (List.Sublist.map Task.id (delete_fst_sublist s i)) ih
  | mark s i _ ih => rw [ids_mark]; exact ih
  | clear s _ ih =>
      exact List.Pairwise.sublist (List.Sublist.map Task.id (clear_fst_sublist s)) ih

lemma int_range_succ (n : Nat) :
    int_range (n + 1) = int_range n ++ [(n : Int) + 1] := by
  simp [int_range, List.range_succ]

lemma add_seq_loop (args : List (String × String × String)) :
    ∀ (k : Nat) (s : List Task), s.map Task.id = int_range k →
      (args.foldl (fun s a => add_task s a.1 a.2.1 a.2.2) s).map Task.id =
        int_range (k + args.length) := by
  induction args with
  | nil =>
      intro k s h
      simpa using h
  | cons a args ih =>
      intro k s h
      have hnext : next_id s = (k : Int) + 1 := by
        cases k with
        | zero =>
            have : s = [] := by
              have := h
              simp [int_range] at this
              exact this
            simp [this, next_id]
        | succ n =>
            have hl : (s.map Task.id).getLast? = some ((n : Int) + 1) := by
              rw [h, int_range_succ, List.getLast?_concat]
            rw [next_id_of_getLast? hl]
            push_cast
            ring
      have hstep : (add_task s a.1 a.2.1 a.2.2).map Task.id = int_range (k + 1) := by
        rw [ids_add, h, hnext, int_range_succ]
      have := ih (k + 1) _ hstep
      rw [List.foldl_cons, this]
      congr 1
      simp only [List.length_cons]
      omega

lemma task_of_task_to_json (t : Task) :
    task_of_json (task_to_json t) = some t := rfl

lemma tasks_of_json_roundtrip (l : List Task) :
    tasks_of_json (l.map task_to_json) = some l := by
  induction l with
  | nil => rfl
  | cons t l ih => simp [tasks_of_json, task_of_task_to_json, ih]

lemma update_not_found {ts : List Task} {i : Int} (x : String)
    (h : ∀ t ∈ ts, t.id ≠ i) : update_task ts i x = (ts, false) := by
  induction ts with
  | nil => rfl
  | cons t ts ih =>
      have ht : t.id ≠ i := h t (List.mem_cons_self t ts)
      have ih' := ih (fun u hu => h u (List.mem_cons_of_mem t hu))
      simp [update_task, ht, ih']

lemma delete_not_found {ts : List Task} {i : Int}
    (h : ∀ t ∈ ts, t.id ≠ i) : delete_task ts i = (ts, false) := by
  induction ts with
  | nil => rfl
  | cons t ts ih =>
      have ht : t.id ≠ i := h t (List.mem_cons_self t ts)
      have ih' := ih (fun u hu => h u (List.mem_cons_of_mem t hu))
      simp [delete_task, ht, ih']

lemma mark_not_found {ts : List Task} {i : Int}
    (h : ∀ t ∈ ts, t.id ≠ i) : mark_complete ts i = (ts, false) := by
  induction ts with
  | nil => rfl
  | cons t ts ih =>
      have ht : t.id ≠ i := h t (List.mem_cons_self t ts)
      have ih' := ih (fun u hu => h u (List.mem_cons_of_mem t hu))
      simp [mark_complete, ht, ih']

lemma delete_first {ts : List Task} {i : Int} (h : ∃ t ∈ ts, t.id = i) :
    ∃ (l₁ l₂ : List Task) (t : Task),
      ts = l₁ ++ t :: l₂ ∧ t.id = i ∧ (∀ u ∈ l₁, u.id ≠ i) ∧
      delete_task ts i = (l₁ ++ l₂, true) := by
  induction ts with
  | nil =>
      obtain ⟨t, ht, _⟩ := h
      cases ht
  | cons a ts ih =>
      by_cases ha : a.id = i
      · exact ⟨[], ts, a, by simp, ha, by simp, by simp [delete_task, ha]⟩
      · have h' : ∃ t ∈ ts, t.id = i := by
          obtain ⟨t, ht, hti⟩ := h
          rcases List.mem_cons.mp ht with rfl | ht'
          · exact absurd hti ha
          · exact ⟨t, ht', hti⟩
        obtain ⟨l₁, l₂, t, heq, hti, hl₁, hdel⟩ := ih h'
        refine ⟨a :: l₁, l₂, t, by simp [heq], hti, ?_, ?_⟩
        · intro u hu
          rcases List.mem_cons.mp hu with rfl | hu'
          · exact ha
          · exact hl₁ u hu'
        · simp [delete_task, ha, hdel]

lemma orderedInsert_append_of_not_rel {α : Type} {r : α → α → Prop}
    [DecidableRel r] {a : α} {l₁ : List α} (l₂ : List α)
    (h : ∀ b ∈ l₁, ¬ r a b) :
    List.orderedInsert r a (l₁ ++ l₂) = l₁ ++ List.orderedInsert r a l₂ := by
  induction l₁ with
  | nil => rfl
  | cons b l₁ ih =>
      have hb : ¬ r a b := h b (List.mem_cons_self b l₁)
      simp [List.orderedInsert, if_neg hb,
        ih (fun c hc => h c (List.mem_cons_of_mem b hc))]

lemma orderedInsert_of_forall_rel {α : Type} {r : α → α → Prop}
    [DecidableRel r] {a : α} {l : List α} (h : ∀ b ∈ l, r a b) :
    List.orderedInsert r a l = a :: l := by
  cases l with
  | nil => rfl
  | cons b l => simp [List.orderedInsert, if_pos (h b (List.mem_cons_self b l))]

lemma priority_rank_lt_three (t : Task) : priority_rank t < 3 := by
  by_cases h1 : t.priority = "high"
  · simp [priority_rank, priority_order, h1]
  · by_cases h2 : t.priority = "medium"
    · simp [priority_rank, priority_order, h1, h2]
    · by_cases h3 : t.priority = "low"
      · simp [priority_rank, priority_order, h1, h2, h3]
      · simp [priority_rank, priority_order, h1, h2, h3]

/-- The stable sort by priority rank lays out the rank-0 tasks, then the
rank-1 tasks, then the rank-2 tasks, each group in original store order. -/
lemma insertionSort_prio (ts : List Task) :
    ts.insertionSort prio_le =
      ts.filter (fun t => priority_rank t == 0) ++
      ts.filter (fun t => priority_rank t == 1) ++
      ts.filter (fun t => priority_rank t == 2) := by
  induction ts with
  | nil => rfl
  | cons a ts ih =>
      simp only [List.insertionSort, ih]
      have hmem0 : ∀ b ∈ ts.filter (fun t => priority_rank t == 0),
          priority_rank b = 0 := by
        intro b hb
        simpa using (List.mem_filter.mp hb).2
      have hmem1 : ∀ b ∈ ts.filter (fun t => priority_rank t == 1),
          priority_rank b = 1 := by
        intro b hb
        simpa using (List.mem_filter.mp hb).2
      have hmem2 : ∀ b ∈ ts.filter (fun t => priority_rank t == 2),
          priority_rank b = 2 := by
        intro b hb
        simpa using (List.mem_filter.mp hb).2
      have h3 := priority_rank_lt_three a
      have hcases : priority_rank a = 0 ∨ priority_rank a = 1 ∨
          priority_rank a = 2 := by omega
      rcases hcases with h | h | h
      · rw [orderedInsert_of_forall_rel]
        · simp [List.filter_cons, h]
        · intro b _
          simp [prio_le, h]
      · rw [List.append_assoc, orderedInsert_append_of_not_rel,
          orderedInsert_of_forall_rel]
        · simp [List.filter_cons, h]
        · intro b hb
          rcases List.mem_append.mp hb with hb' | hb'
          · simp [prio_le, h, hmem1 b hb']
          · simp [prio_le, h, hmem2 b hb']
        · intro b hb
          simp [prio_le, h, hmem0 b hb]
      · rw [orderedInsert_append_of_not_rel, orderedInsert_of_forall_rel]
        · simp [List.filter_cons, h]
        · intro b hb
          simp [prio_le, h, hmem2 b hb]
        · intro b hb
          rcases List.mem_append.mp hb with hb' | hb'
          · simp [prio_le, h, hmem0 b hb']
          · simp [prio_le, h, hmem1 b hb']

lemma priority_rank_eq_of_valid {t : Task}
    (h : t.priority = "high" ∨ t.priority = "medium" ∨ t.priority = "low") :
    ((priority_rank t == 0) = (t.priority == "high")) ∧
    ((priority_rank t == 1) = (t.priority == "medium")) ∧
    ((priority_rank t == 2) = (t.priority == "low")) := by
  rcases h with h | h | h <;>
    simp [priority_rank, priority_order, h]

/-! ### Claim theorems -/

/-- C1, counterexample: deleted ids ARE reused.  From the empty store, two
adds assign ids 1 and 2; deleting id 2 succeeds; the next add assigns id 2
again, because `add_task` takes the LAST element's id + 1 (line 87), not a
high-water mark.  This run uses only reachable states. -/
theorem deleted_id_reused_counterexample :
    (add_task (add_task [] "a" "" "medium") "b" "" "medium").map Task.id
      = [1, 2] ∧
    (delete_task (add_task (add_task [] "a" "" "medium") "b" "" "medium")
      2).2 = true ∧
    (add_task
      (delete_task (add_task (add_task [] "a" "" "medium") "b" "" "medium")
        2).1 "c" "" "medium").map Task.id = [1, 2] := by
  refine ⟨by decide, by decide, by decide⟩

/-- C1 (amended): deleted ids can be reused by a later add (deleting the
task with the currently largest id makes the next add hand that id out
again).  What does hold in every reachable store state is that the ids are
strictly increasing along the store, so all live ids stay pairwise distinct
and an add never duplicates the id of a task still present. -/
theorem reachable_ids_strictly_increasing {s : List Task}
    (h : Reachable s) : (s.map Task.id).Pairwise (· < ·) :=
  reachable_ids_pairwise h

/-- Witness for C1 (amended) at the reuse scenario's final state. -/
theorem reachable_ids_strictly_increasing_witness :
    ((add_task
      (delete_task (add_task (add_task [] "a" "" "medium") "b" "" "medium")
        2).1 "c" "" "medium").map Task.id).Pairwise (· < ·) :=
  reachable_ids_strictly_increasing
    (Reachable.add _ _ _ _ (Reachable.delete _ _
      (Reachable.add _ _ _ _ (Reachable.add _ _ _ _ Reachable.empty))))

/-- C2, counterexample: on a store whose ids are not in increasing order —
obtainable, since `load_tasks` accepts any integer ids without validation —
`add_task` does NOT assign max existing id + 1: with existing ids [5, 3] the
new id is 4 (last + 1), not 6. -/
theorem next_id_not_max_counterexample :
    load_tasks (.jarr
      [.jobj [("id", .jint 5), ("title", .jstr "a"), ("description", .jstr ""),
              ("priority", .jstr "medium"), ("completed", .jbool false)],
       .jobj [("id", .jint 3), ("title", .jstr "b"), ("description", .jstr ""),
              ("priority", .jstr "medium"), ("completed", .jbool false)]])
      = some [⟨5, "a", "", "medium", false⟩, ⟨3, "b", "", "medium", false⟩] ∧
    (5 : Int) ∈ ([⟨5, "a", "", "medium", false⟩,
                  ⟨3, "b", "", "medium", false⟩] : List Task).map Task.id ∧
    next_id [⟨5, "a", "", "medium", false⟩, ⟨3, "b", "", "medium", false⟩]
      = 4 := by
  refine ⟨rfl, by decide, by decide⟩

/-- C2 (amended): `add_task` assigns the LAST task's id + 1 (1 on the empty
store); whenever the store's ids are in strictly increasing order — true of
every reachable state — this coincides with the maximum existing id + 1. -/
theorem next_id_spec :
    next_id [] = 1 ∧
    ∀ (ts : List Task) (m : Int), (ts.map Task.id).Pairwise (· < ·) →
      m ∈ ts.map Task.id → (∀ x ∈ ts.map Task.id, x ≤ m) →
      next_id ts = m + 1 := by
  refine ⟨rfl, ?_⟩
  intro ts m hs hm hmax
  cases hgl : (ts.map Task.id).getLast? with
  | none =>
      have hnil : ts.map Task.id = [] := by simpa using hgl
      rw [hnil] at hm
      cases hm
  | some k =>
      have h1 : m ≤ k := le_getLast_of_pairwise hs hgl hm
      have h2 : k ≤ m := hmax k (mem_of_getLast?_eq hgl)
      obtain rfl : k = m := le_antisymm h2 h1
      exact next_id_of_getLast? hgl

/-- Witness for C2 (amended): on the store with ids [1, 2] the next id is
the maximum, 2, plus 1. -/
theorem next_id_spec_witness :
    next_id [⟨1, "a", "", "medium", false⟩, ⟨2, "b", "", "medium", false⟩]
      = 2 + 1 :=
  next_id_spec.2 [⟨1, "a", "", "medium", false⟩, ⟨2, "b", "", "medium", false⟩]
    2 (by decide) (by decide) (by decide)

/-- C3: starting from the empty store, any sequence of `add` calls assigns
the ids 1, 2, …, n in order: the assigned ids are exactly `[1, …, n]`, they
are strictly increasing (hence pairwise distinct), and the first one is 1. -/
theorem add_seq_ids (args : List (String × String × String)) :
    (add_seq args).map Task.id = int_range args.length ∧
    ((add_seq args).map Task.id).Pairwise (· < ·) ∧
    (args ≠ [] → ((add_seq args).map Task.id).head? = some 1) := by
  have hids : (add_seq args).map Task.id = int_range args.length := by
    have := add_seq_loop args 0 [] (by simp [int_range])
    simpa [add_seq] using this
  refine ⟨hids, ?_, ?_⟩
  · rw [hids]
    simp only [int_range]
    exact @List.Pairwise.map Int Nat (· < ·) (List.range args.length) (· < ·)
      (fun i => (i : Int) + 1)
      (fun a b hab => by change (a : Int) + 1 < (b : Int) + 1; omega)
      (List.pairwise_lt_range args.length)
  · intro hne
    rw [hids]
    cases args with
    | nil => cases hne rfl
    | cons a args => simp [int_range, List.range_succ_eq_map]

/-- Witness for C3 at a two-call sequence. -/
theorem add_seq_ids_witness :
    ((add_seq [("a", "", "medium"), ("b", "x", "HIGH")]).map Task.id).head?
      = some 1 :=
  (add_seq_ids [("a", "", "medium"), ("b", "x", "HIGH")]).2.2 (by decide)

/-- C4: serializing any in-memory collection with `save_tasks` and parsing
the result with `load_tasks` yields exactly the same ordered collection —
every task, in order, with id, title, description, priority and completed
all preserved. -/
theorem save_load_roundtrip (ts : List Task) :
    load_tasks (save_tasks ts) = some ts := by
  simp only [save_tasks, load_tasks]
  exact tasks_of_json_roundtrip ts

/-- C5: the task appended by `add_task` carries the lowercased priority when
that lowercase form is one of high/medium/low, and "medium" for any other
input; it is never completed at creation, and title/description/id are as
supplied. -/
theorem add_task_normalizes_priority (ts : List Task)
    (title description priority : String) :
    ∃ t : Task,
      add_task ts title description priority = ts ++ [t] ∧
      ((str_lower priority = "high" ∨ str_lower priority = "medium" ∨
          str_lower priority = "low") → t.priority = str_lower priority) ∧
      (¬(str_lower priority = "high" ∨ str_lower priority = "medium" ∨
          str_lower priority = "low") → t.priority = "medium") ∧
      t.completed = false ∧ t.title = title ∧
      t.description = description ∧ t.id = next_id ts := by
  refine ⟨_, rfl, ?_, ?_, rfl, rfl, rfl, rfl⟩
  · intro h
    simp only [add_task, if_pos h]
  · intro h
    simp only [add_task, if_neg h]

/-- Witness for C5: "HIGH" is stored lowercased, the invalid "urgent" falls
back to "medium". -/
theorem add_task_normalizes_priority_witness :
    (add_task [] "T" "" "HIGH").map Task.priority = ["high"] ∧
    (add_task [] "T" "" "urgent").map Task.priority = ["medium"] := by
  obtain ⟨t1, h1, hp1, _, _, _, _⟩ :=
    add_task_normalizes_priority [] "T" "" "HIGH"
  obtain ⟨t2, h2, _, hp2, _, _, _⟩ :=
    add_task_normalizes_priority [] "T" "" "urgent"
  rw [h1, h2, List.nil_append, List.nil_append, List.map_singleton,
    List.map_singleton, hp1 (by decide), hp2 (by decide)]
  exact ⟨by decide, rfl⟩

/-- C6: `list_tasks` with filter_status "done" displays exactly the
subsequence of completed tasks in store order, "pending" the non-completed
ones; a status filter and a priority filter given together act
conjunctively; and the store (second component) is never changed. -/
theorem list_tasks_filters (ts : List Task) :
    (list_tasks ts (some "done") none).1 = ts.filter (fun t => t.completed) ∧
    (list_tasks ts (some "pending") none).1 =
      ts.filter (fun t => !t.completed) ∧
    (∀ s p : String, s ≠ "" → p ≠ "" →
      (list_tasks ts (some s) (some p)).1 =
        ts.filter (fun t => (t.completed == (str_lower s == "done")) &&
          (t.priority == str_lower p))) ∧
    (∀ fs fp : Option String, (list_tasks ts fs fp).2 = ts) := by
  have hdone : (str_lower "done" == "done") = true := by decide
  have hpend : (str_lower "pending" == "done") = false := by decide
  refine ⟨?_, ?_, ?_, ?_⟩
  · simp [list_tasks, hdone]
  · simp [list_tasks, hpend]
  · intro s p hs hp
    simp only [list_tasks, if_neg hs, if_neg hp, List.filter_filter]
    exact List.filter_congr (fun t _ => by rw [Bool.and_comm])
  · intro fs fp
    rfl

/-- Witness for C6 at a three-task store: status "done" plus priority "LOW"
keeps exactly the completed low-priority task. -/
theorem list_tasks_filters_witness :
    (list_tasks [⟨1, "a", "", "low", false⟩, ⟨2, "b", "", "low", true⟩,
        ⟨3, "c", "", "high", true⟩] (some "done") (some "LOW")).1
      = [⟨2, "b", "", "low", true⟩] := by
  rw [(list_tasks_filters [⟨1, "a", "", "low", false⟩, ⟨2, "b", "", "low", true⟩,
    ⟨3, "c", "", "high", true⟩]).2.2.1 "done" "LOW" (by decide) (by decide)]
  decide

/-- C8: on an id present nowhere in the store, `update_task`, `delete_task`
and `mark_complete` all return the collection unchanged and signal not-found
(the `false` outcome); on a present id, `delete_task` removes exactly the
first task bearing that id and keeps everything else in order. -/
theorem id_scan_ops_spec (ts : List Task) (i : Int) (x : String) :
    ((∀ t ∈ ts, t.id ≠ i) →
      update_task ts i x = (ts, false) ∧
      delete_task ts i = (ts, false) ∧
      mark_complete ts i = (ts, false)) ∧
    ((∃ t ∈ ts, t.id = i) →
      ∃ (l₁ l₂ : List Task) (t : Task),
        ts = l₁ ++ t :: l₂ ∧ t.id = i ∧ (∀ u ∈ l₁, u.id ≠ i) ∧
        delete_task ts i = (l₁ ++ l₂, true)) :=
  ⟨fun h => ⟨update_not_found x h, delete_not_found h, mark_not_found h⟩,
   fun h => delete_first h⟩

/-- Witness for C8: id 5 is absent from a one-task store (all three
operations are no-ops); id 2 is present in a two-task store and deleting it
removes exactly that entry. -/
theorem id_scan_ops_spec_witness :
    (update_task [⟨1, "a", "", "low", false⟩] 5 "x"
        = ([⟨1, "a", "", "low", false⟩], false) ∧
      delete_task [⟨1, "a", "", "low", false⟩] 5
        = ([⟨1, "a", "", "low", false⟩], false) ∧
      mark_complete [⟨1, "a", "", "low", false⟩] 5
        = ([⟨1, "a", "", "low", false⟩], false)) ∧
    (∃ (l₁ l₂ : List Task) (t : Task),
      ([⟨1, "a", "", "low", false⟩, ⟨2, "b", "", "low", false⟩] : List Task)
        = l₁ ++ t :: l₂ ∧ t.id = 2 ∧ (∀ u ∈ l₁, u.id ≠ 2) ∧
      delete_task [⟨1, "a", "", "low", false⟩, ⟨2, "b", "", "low", false⟩] 2
        = (l₁ ++ l₂, true)) :=
  ⟨(id_scan_ops_spec [⟨1, "a", "", "low", false⟩] 5 "x").1 (by decide),
   (id_scan_ops_spec [⟨1, "a", "", "low", false⟩, ⟨2, "b", "", "low", false⟩]
      2 "x").2 (by decide)⟩

/-- C10: any non-empty status filter whose lowercase form is not "done" —
not only "pending" — selects exactly the non-completed tasks, because the
code only tests `filter_status.lower() == 'done'`. -/
theorem list_tasks_status_fallback (ts : List Task) (s : String)
    (hne : s ≠ "") (hnd : str_lower s ≠ "done") :
    (list_tasks ts (some s) none).1 = ts.filter (fun t => !t.completed) := by
  have hd : (str_lower s == "done") = false := by
    simpa using hnd
  simp [list_tasks, if_neg hne, hd]

/-- Witness for C10 with the status filter "Weird". -/
theorem list_tasks_status_fallback_witness :
    (list_tasks [⟨1, "a", "", "low", false⟩, ⟨2, "b", "", "low", true⟩]
        (some "Weird") none).1 = [⟨1, "a", "", "low", false⟩] := by
  rw [list_tasks_status_fallback
    [⟨1, "a", "", "low", false⟩, ⟨2, "b", "", "low", true⟩] "Weird"
    (by decide) (by decide)]
  decide

/-- C7: on a store of tasks as the data model defines them (priority one of
high/medium/low), `sort_tasks "priority"` displays all the high tasks, then
the medium, then the low ones, each group keeping its original relative
order (stability); any sort key other than "priority" / "status" displays
the original order; and in all cases the stored order (second component) is
unchanged. -/
theorem sort_tasks_spec (ts : List Task)
    (h : ∀ t ∈ ts, t.priority = "high" ∨ t.priority = "medium" ∨
      t.priority = "low") :
    (sort_tasks ts "priority").1 =
      some (ts.filter (fun t => t.priority == "high") ++
            ts.filter (fun t => t.priority == "medium") ++
            ts.filter (fun t => t.priority == "low")) ∧
    (∀ b : String, b ≠ "priority" → b ≠ "status" →
      (sort_tasks ts b).1 = some ts) ∧
    (∀ b : String, (sort_tasks ts b).2 = ts) := by
  refine ⟨?_, ?_, fun b => rfl⟩
  · have hall : ts.all (fun t => (priority_order t.priority).isSome) = true := by
      rw [List.all_eq_true]
      intro t ht
      rcases h t ht with h' | h' | h' <;> simp [priority_order, h']
    have h0 : ts.filter (fun t => priority_rank t == 0) =
        ts.filter (fun t => t.priority == "high") :=
      List.filter_congr (fun t ht => (priority_rank_eq_of_valid (h t ht)).1)
    have h1 : ts.filter (fun t => priority_rank t == 1) =
        ts.filter (fun t => t.priority == "medium") :=
      List.filter_congr (fun t ht => (priority_rank_eq_of_valid (h t ht)).2.1)
    have h2 : ts.filter (fun t => priority_rank t == 2) =
        ts.filter (fun t => t.priority == "low") :=
      List.filter_congr (fun t ht => (priority_rank_eq_of_valid (h t ht)).2.2)
    simp only [sort_tasks, if_pos rfl, hall, if_true, insertionSort_prio,
      h0, h1, h2]
  · intro b hb1 hb2
    simp [sort_tasks, hb1, hb2]

/-- Witness for C7 at the spec's §8 example: priorities [low, high, medium,
high] sort to [high, high, medium, low] with the two high tasks (ids 2 and
4) in their original relative order. -/
theorem sort_tasks_spec_witness :
    (sort_tasks [⟨1, "t1", "", "low", false⟩, ⟨2, "t2", "", "high", false⟩,
        ⟨3, "t3", "", "medium", false⟩, ⟨4, "t4", "", "high", true⟩]
      "priority").1 =
      some [⟨2, "t2", "", "high", false⟩, ⟨4, "t4", "", "high", true⟩,
        ⟨3, "t3", "", "medium", false⟩, ⟨1, "t1", "", "low", false⟩] := by
  rw [(sort_tasks_spec [⟨1, "t1", "", "low", false⟩,
    ⟨2, "t2", "", "high", false⟩, ⟨3, "t3", "", "medium", false⟩,
    ⟨4, "t4", "", "high", true⟩] (by decide)).1]
  decide

/-- C9: when every task's priority is one of high/medium/low, every
`priority_order` lookup performed by the priority sort is defined (the
`KeyError` branch, our `none`, is unreachable and the sort view exists).
This precondition holds for the task appended by any `add_task` call, but
not for tasks obtained from `load_tasks`, which accepts a record with an
arbitrary priority string without validation. -/
theorem priority_lookup_safety :
    (∀ ts : List Task,
      (∀ t ∈ ts, t.priority = "high" ∨ t.priority = "medium" ∨
        t.priority = "low") →
      (∀ t ∈ ts, (priority_order t.priority).isSome = true) ∧
      ((sort_tasks ts "priority").1).isSome = true) ∧
    (∀ (ts : List Task) (title description priority : String),
      ∀ t ∈ add_task ts title description priority,
        t ∈ ts ∨ (priority_order t.priority).isSome = true) ∧
    (∃ (v : JValue) (t : Task),
      load_tasks v = some [t] ∧ priority_order t.priority = none) := by
  refine ⟨?_, ?_, ?_⟩
  · intro ts h
    have hsome : ∀ t ∈ ts, (priority_order t.priority).isSome = true := by
      intro t ht
      rcases h t ht with h' | h' | h' <;> simp [priority_order, h']
    refine ⟨hsome, ?_⟩
    have hall : ts.all (fun t => (priority_order t.priority).isSome) = true :=
      List.all_eq_true.mpr hsome
    simp [sort_tasks, hall]
  · intro ts title description priority t ht
    rcases List.mem_append.mp ht with ht' | ht'
    · exact Or.inl ht'
    · right
      simp only [List.mem_singleton] at ht'
      subst ht'
      by_cases hp : str_lower priority = "high" ∨
          str_lower priority = "medium" ∨ str_lower priority = "low"
      · rcases hp with h' | h' | h' <;>
          simp [add_task, if_pos (by tauto), priority_order, h']
      · simp [add_task, if_neg hp, priority_order]
  · refine ⟨.jarr [.jobj [("id", .jint 7), ("title", .jstr "a"),
      ("description", .jstr ""), ("priority", .jstr "urgent"),
      ("completed", .jbool true)]],
      ⟨7, "a", "", "urgent", true⟩, rfl, rfl⟩

/-- Witness for C9: on a valid one-task store the priority sort view is
defined. -/
theorem priority_lookup_safety_witness :
    ((sort_tasks [⟨1, "a", "", "high", false⟩] "priority").1).isSome = true :=
  (priority_lookup_safety.1 [⟨1, "a", "", "high", false⟩] (by decide)).2

end TaskStore
